import Mathlib

/-!
Verification development for the rigel malware scanner (rigel.go).

The scanner pipeline is shallowly embedded over lists of bytes (List Nat):
the four content-normalizer regular expressions are embedded as explicit
leftmost-first scanners, strconv.Unquote of a single-quoted literal is
embedded as an executable decoder, and the database loader, file checker,
extension-filter flag and directory walker are embedded as pure functions
over explicit state records. External collaborators (the XML decoder,
http.DetectContentType, the Go regexp compiler for user signatures) enter
as abstract parameters, exactly at the boundaries the code calls them.
-/

namespace Rigel

/-! ## Byte classes used by the normalizer regular expressions -/

/-- Byte is an RE2 whitespace byte: the class matched by a backslash-s item,
namely tab, newline, form feed, carriage return and space. -/
def isSpaceByte (b : Nat) : Bool :=
  b == 9 || b == 10 || b == 12 || b == 13 || b == 32

/-- Byte is a single or double quote, the first and last item of the
quote-dot-quote normalizer pattern. -/
def isQuoteByte (b : Nat) : Bool :=
  b == 39 || b == 34

/-- Byte is a hexadecimal digit: the class a-f, A-F, 0-9 of the hex-escape
normalizer pattern. -/
def isHexByte (b : Nat) : Bool :=
  (48 ≤ b && b ≤ 57) || (97 ≤ b && b ≤ 102) || (65 ≤ b && b ≤ 70)

/-- Byte is a decimal digit 0-9, the class of the octal-escape normalizer
pattern (which deliberately includes the digits 8 and 9). -/
def isDigitByte (b : Nat) : Bool :=
  48 ≤ b && b ≤ 57

/-! ## The four normalizer patterns of compileNormalizers, as scanners

Each function decides whether the corresponding regular expression of
compileNormalizers matches at the head of the input, returning the matched
span and the remaining input.  Go regexp uses leftmost-first (Perl-like)
semantics; for these four patterns the lazy and greedy quantifier choices
reduce to the deterministic scans below (each lazy quantifier is followed
by a literal that its own class cannot match, and each greedy counted
quantifier simply takes as many class bytes as are available). -/

/-- Match of the first normalizer pattern at the head of the input: a quote,
lazily-quantified whitespace, a literal dot, lazily-quantified whitespace
and a quote (the quote-dot-quote string-concatenation stripper). -/
def qdqMatchAt : List Nat → Option (List Nat × List Nat)
  | [] => none
  | b :: rest =>
    if isQuoteByte b then
      let ws1 := rest.takeWhile isSpaceByte
      let r1 := rest.drop ws1.length
      match r1 with
      | 46 :: r2 =>
        let ws2 := r2.takeWhile isSpaceByte
        let r3 := r2.drop ws2.length
        match r3 with
        | q2 :: r4 =>
          if isQuoteByte q2 then some (b :: ws1 ++ 46 :: ws2 ++ [q2], r4) else none
        | [] => none
      | _ => none
    else none

/-- Shortest run of bytes ending in star-slash, for the lazily-quantified
body of the block-comment pattern (the s flag lets the dot match every
byte, including newline). -/
def cmtEnd : List Nat → Option (List Nat × List Nat)
  | [] => none
  | 42 :: 47 :: r => some ([42, 47], r)
  | b :: r =>
    match cmtEnd r with
    | some (m, rest) => some (b :: m, rest)
    | none => none

/-- Match of the second normalizer pattern at the head of the input:
slash-star, a lazy run of arbitrary bytes, star-slash (the block-comment
stripper). -/
def cmtMatchAt : List Nat → Option (List Nat × List Nat)
  | 47 :: 42 :: r =>
    match cmtEnd r with
    | some (m, rest) => some (47 :: 42 :: m, rest)
    | none => none
  | _ => none

/-- Match of the third normalizer pattern at the head of the input:
backslash, x (case-insensitively, so also X), then greedily one or two
hexadecimal digits. -/
def hexMatchAt : List Nat → Option (List Nat × List Nat)
  | 92 :: x :: d1 :: rest =>
    if (x == 120 || x == 88) && isHexByte d1 then
      match rest with
      | d2 :: rest2 =>
        if isHexByte d2 then some ([92, x, d1, d2], rest2)
        else some ([92, x, d1], d2 :: rest2)
      | [] => some ([92, x, d1], [])
    else none
  | _ => none

/-- Match of the fourth normalizer pattern at the head of the input:
backslash, then greedily one to three decimal digits. -/
def octMatchAt : List Nat → Option (List Nat × List Nat)
  | 92 :: d1 :: rest =>
    if isDigitByte d1 then
      let ds := (rest.takeWhile isDigitByte).take 2
      some (92 :: d1 :: ds, rest.drop ds.length)
    else none
  | _ => none

/-- Fueled scan implementing ReplaceAll / ReplaceAllFunc: walk the input
left to right, replace every leftmost non-overlapping match by the image
of the replacement function, and copy non-matching bytes.  Every pattern
of the normalizer matches at least two bytes, so fuel equal to the input
length never runs out. -/
def replaceScanF (matchAt : List Nat → Option (List Nat × List Nat))
    (repl : List Nat → List Nat) : Nat → List Nat → List Nat
  | _, [] => []
  | 0, s => s
  | fuel + 1, b :: rest =>
    match matchAt (b :: rest) with
    | some (m, after) => repl m ++ replaceScanF matchAt repl fuel after
    | none => b :: replaceScanF matchAt repl fuel rest

/-- Replace every leftmost non-overlapping match of a pattern in the input,
as Go regexp ReplaceAll and ReplaceAllFunc do. -/
def replaceScan (matchAt : List Nat → Option (List Nat × List Nat))
    (repl : List Nat → List Nat) (s : List Nat) : List Nat :=
  replaceScanF matchAt repl s.length s

/-! ## strconv.Unquote of a single-quoted literal (unquoteStr) -/

/-- Value of a hexadecimal digit byte, if it is one. -/
def hexVal (b : Nat) : Option Nat :=
  if 48 ≤ b && b ≤ 57 then some (b - 48)
  else if 97 ≤ b && b ≤ 102 then some (b - 87)
  else if 65 ≤ b && b ≤ 70 then some (b - 55)
  else none

/-- Read exactly n hexadecimal digit bytes, accumulating their value;
fewer than n available digits is a syntax error, as in strconv. -/
def readHexDigits : Nat → Nat → List Nat → Except String (Nat × List Nat)
  | 0, acc, rest => Except.ok (acc, rest)
  | n + 1, acc, b :: rest =>
    match hexVal b with
    | some d => readHexDigits n (acc * 16 + d) rest
    | none => Except.error "invalid syntax"
  | _ + 1, _, [] => Except.error "invalid syntax"

/-- First rune of a byte sequence together with the number of bytes it
spans, following unicode/utf8 DecodeRune: an invalid encoding decodes to
the replacement rune 65533 with width one. -/
def utf8DecodeFirst : List Nat → Nat × Nat
  | [] => (65533, 1)
  | b0 :: rest =>
    if b0 < 128 then (b0, 1)
    else if b0 < 194 then (65533, 1)
    else if b0 < 224 then
      match rest with
      | b1 :: _ =>
        if 128 ≤ b1 && b1 < 192 then ((b0 - 192) * 64 + (b1 - 128), 2)
        else (65533, 1)
      | [] => (65533, 1)
    else if b0 < 240 then
      match rest with
      | b1 :: b2 :: _ =>
        if (if b0 == 224 then 160 ≤ b1 && b1 < 192
            else if b0 == 237 then 128 ≤ b1 && b1 < 160
            else 128 ≤ b1 && b1 < 192) && (128 ≤ b2 && b2 < 192) then
          ((b0 - 224) * 4096 + (b1 - 128) * 64 + (b2 - 128), 3)
        else (65533, 1)
      | _ => (65533, 1)
    else if b0 < 245 then
      match rest with
      | b1 :: b2 :: b3 :: _ =>
        if (if b0 == 240 then 144 ≤ b1 && b1 < 192
            else if b0 == 244 then 128 ≤ b1 && b1 < 144
            else 128 ≤ b1 && b1 < 192) && (128 ≤ b2 && b2 < 192)
            && (128 ≤ b3 && b3 < 192) then
          ((b0 - 240) * 262144 + (b1 - 128) * 4096 + (b2 - 128) * 64 + (b3 - 128), 4)
        else (65533, 1)
      | _ => (65533, 1)
    else (65533, 1)

/-- UTF-8 encoding of a rune value, as the Go conversion string(r)
performs it for the valid rune values produced by unquoting. -/
def utf8Encode (r : Nat) : List Nat :=
  if r < 128 then [r]
  else if r < 2048 then [192 + r / 64, 128 + r % 64]
  else if r < 65536 then [224 + r / 4096, 128 + (r / 64) % 64, 128 + r % 64]
  else [240 + r / 262144, 128 + (r / 4096) % 64, 128 + (r / 64) % 64, 128 + r % 64]

/-- strconv.UnquoteChar with quote character single-quote: decode the first
(possibly escaped) character of the literal body, returning its rune value
and the unread tail.  An unescaped single quote, a truncated escape, a
non-escape after the backslash (this covers the digits 8 and 9, capital X,
and double quote, which may not be backslash-escaped inside single
quotes), too few hexadecimal or octal digits, a surrogate or out-of-range
code point, and an octal value above 255 are all syntax errors. -/
def unquoteChar : List Nat → Except String (Nat × List Nat)
  | [] => Except.error "invalid syntax"
  | c :: rest =>
    if c == 39 then Except.error "invalid syntax"
    else if 128 ≤ c then
      let rs := utf8DecodeFirst (c :: rest)
      Except.ok (rs.1, (c :: rest).drop rs.2)
    else if c != 92 then Except.ok (c, rest)
    else
      match rest with
      | [] => Except.error "invalid syntax"
      | e :: rest2 =>
        if e == 97 then Except.ok (7, rest2)
        else if e == 98 then Except.ok (8, rest2)
        else if e == 102 then Except.ok (12, rest2)
        else if e == 110 then Except.ok (10, rest2)
        else if e == 114 then Except.ok (13, rest2)
        else if e == 116 then Except.ok (9, rest2)
        else if e == 118 then Except.ok (11, rest2)
        else if e == 92 then Except.ok (92, rest2)
        else if e == 39 then Except.ok (39, rest2)
        else if e == 120 then
          match readHexDigits 2 0 rest2 with
          | Except.ok vr => Except.ok vr
          | Except.error msg => Except.error msg
        else if e == 117 then
          match readHexDigits 4 0 rest2 with
          | Except.ok vr =>
            if 55296 ≤ vr.1 && vr.1 < 57344 then Except.error "invalid syntax"
            else Except.ok vr
          | Except.error msg => Except.error msg
        else if e == 85 then
          match readHexDigits 8 0 rest2 with
          | Except.ok vr =>
            if (55296 ≤ vr.1 && vr.1 < 57344) || 1114111 < vr.1 then
              Except.error "invalid syntax"
            else Except.ok vr
          | Except.error msg => Except.error msg
        else if 48 ≤ e && e ≤ 55 then
          match rest2 with
          | d2 :: d3 :: r3 =>
            if (48 ≤ d2 && d2 ≤ 55) && (48 ≤ d3 && d3 ≤ 55) then
              let v := (e - 48) * 64 + (d2 - 48) * 8 + (d3 - 48)
              if 255 < v then Except.error "invalid syntax" else Except.ok (v, r3)
            else Except.error "invalid syntax"
          | _ => Except.error "invalid syntax"
        else Except.error "invalid syntax"

/-- strconv.Unquote applied to the input wrapped in single quotes, as
unquoteStr builds it: the body must not contain a newline, must be
non-empty, and must decode to exactly one rune, whose string conversion
(UTF-8 bytes) is the result. -/
def goUnquoteSingle (s : List Nat) : Except String (List Nat) :=
  if s.contains 10 then Except.error "invalid syntax"
  else if s = [] then Except.error "invalid syntax"
  else
    match unquoteChar s with
    | Except.error e => Except.error e
    | Except.ok rt =>
      if rt.2 = [] then Except.ok (utf8Encode rt.1) else Except.error "invalid syntax"

/-- unquoteStr from rigel.go: wrap the matched span in single quotes, run
strconv.Unquote, and on any decode error return the empty byte slice. -/
def unquoteStr (s : List Nat) : List Nat :=
  match goUnquoteSingle s with
  | Except.error _ => []
  | Except.ok u => u

/-! ## The content normalizer of checkFile

checkFile applies the first two compiled patterns with ReplaceAll and an
empty template (stripping), then the last two with ReplaceAllFunc and
unquoteStr (escape decoding), in the order compileNormalizers lists
them. -/

/-- Step 1: delete every quote-dot-quote concatenation span. -/
def normStep1 (c : List Nat) : List Nat := replaceScan qdqMatchAt (fun _ => []) c

/-- Step 2: delete every block-comment span. -/
def normStep2 (c : List Nat) : List Nat := replaceScan cmtMatchAt (fun _ => []) c

/-- Step 3: replace every hex-escape span by its unquoteStr image. -/
def normStep3 (c : List Nat) : List Nat := replaceScan hexMatchAt unquoteStr c

/-- Step 4: replace every octal-escape span by its unquoteStr image. -/
def normStep4 (c : List Nat) : List Nat := replaceScan octMatchAt unquoteStr c

/-- The full content normalization of checkFile: the four steps in the
fixed order of the compiled-normalizer slice. -/
def normalizeContent (c : List Nat) : List Nat :=
  normStep4 (normStep3 (normStep2 (normStep1 c)))

/-- Bytes of an ASCII string, for concrete test vectors. -/
def strBytes (s : String) : List Nat := s.data.map Char.toNat

/-! ## Signatures and the database loader (readDatabase)

The XML fetch and decode are external collaborators; readDatabase is
embedded from the point where the decoded signature records are in hand.
Compilation of a user-supplied pattern by the Go regexp package is
abstracted as a parameter that either yields a matcher (a predicate on
content bytes) or an error message. -/

/-- A decoded signature record before pattern compilation: the id, title
and severity attributes and the pattern text, as the XML decoder fills
them into the Signature struct. -/
structure RawSignature where
  Id : Int
  Title : String
  «Type» : String
  Signature : String
deriving DecidableEq

/-- A signature after compilation: the decoded record together with its
compiled matcher, modelled as a predicate on normalized content bytes. -/
structure Signature where
  Id : Int
  Title : String
  «Type» : String
  Signature : String
  Regexp : List Nat → Bool

/-- The record part of a compiled signature. -/
def sigToRaw (s : Signature) : RawSignature :=
  { Id := s.Id, Title := s.Title, «Type» := s.«Type», Signature := s.Signature }

/-- The error text of a failed signature compilation, from the Errorf call
in readDatabase; the pattern is rendered quoted (the percent-q verb,
modelled here for patterns without bytes that need escaping). -/
def compileErrMsg (sig : RawSignature) (e : String) : String :=
  "failed to compile signature " ++ toString sig.Id ++ " regexp \"" ++
    sig.Signature ++ "\": " ++ e

/-- The compilation loop of readDatabase: compile every record's pattern
in document order, failing on the first record whose pattern does not
compile. -/
def compileAll (compile : String → Except String (List Nat → Bool)) :
    List RawSignature → Except String (List Signature)
  | [] => Except.ok []
  | sig :: rest =>
    match compile sig.Signature with
    | Except.error e => Except.error (compileErrMsg sig e)
    | Except.ok r =>
      match compileAll compile rest with
      | Except.error e => Except.error e
      | Except.ok tail =>
        Except.ok ({ Id := sig.Id, Title := sig.Title, «Type» := sig.«Type»,
                     Signature := sig.Signature, Regexp := r } :: tail)

/-- readDatabase after XML decoding: reject an empty record list, compile
every pattern, and when the skip-soft option is set keep only the
signatures whose severity code is the string c, in their original
order. -/
def readDatabase (compile : String → Except String (List Nat → Bool))
    (skipsoft : Bool) (sigs : List RawSignature) : Except String (List Signature) :=
  if sigs = [] then Except.error "no signatures loaded, check file format"
  else
    match compileAll compile sigs with
    | Except.error e => Except.error e
    | Except.ok compiled =>
      if skipsoft then Except.ok (compiled.filter (fun s => s.«Type» == "c"))
      else Except.ok compiled

/-! ## The per-file scan (checkFile) -/

/-- The fixed file-size ceiling MAXFILESIZE of rigel.go, in bytes. -/
def MAXFILESIZE : Int := 2 * 1024 * 1024

/-- strings.HasPrefix. -/
def goHasPrefix (s p : String) : Bool := s.data.take p.data.length == p.data

/-- strings.HasSuffix. -/
def goHasSuffix (s p : String) : Bool :=
  s.data.drop (s.data.length - p.data.length) == p.data

/-- The observable fate of one file under checkFile: a warning log line
and skip (open, seek, stat, oversize or read failure), a silent skip of a
non-text file, a scan that matched no signature (no output), or a scan
that printed one match line. -/
inductive CheckResult where
  | warnOpen
  | skippedNonText
  | warnSeek
  | warnStat
  | warnSize
  | warnRead
  | noMatch
  | matched (line : String)
deriving DecidableEq

/-- One file as checkFile observes it: its bytes, the size the Stat call
reports, and whether each of the open, initial 512-byte read, seek, stat
and full-read operations fails.  The initial read additionally returns an
error on an empty file (zero bytes at end of file). -/
structure GoFile where
  content : List Nat
  size : Int
  openErr : Bool
  headErr : Bool
  seekErr : Bool
  statErr : Bool
  readErr : Bool

/-- The match line printed for a signature, exactly as the Printf format
string of checkFile lays it out. -/
def formatMatch (s : Signature) (path : String) : String :=
  "Matched: " ++ s.Title ++ " (signature id = " ++ toString s.Id ++ "): " ++ path

/-- The signature loop of checkFile: test each signature in order against
the normalized content and stop at the first match, producing its line;
produce nothing when no signature matches. -/
def matchLoop (sigs : List Signature) (c : List Nat) (path : String) : Option String :=
  match sigs with
  | [] => none
  | s :: rest => if s.Regexp c then some (formatMatch s path) else matchLoop rest c path

/-- The tail of checkFile after the sniffing block: stat the file, skip it
with a warning when the reported size exceeds MAXFILESIZE, read it fully,
normalize the content and run the signature loop. -/
def scanStage (path : String) (f : GoFile) (sigs : List Signature) : CheckResult :=
  if f.statErr then CheckResult.warnStat
  else if f.size > MAXFILESIZE then CheckResult.warnSize
  else if f.readErr then CheckResult.warnRead
  else
    match matchLoop sigs (normalizeContent f.content) path with
    | some line => CheckResult.matched line
    | none => CheckResult.noMatch

/-- checkFile: open the file; when no extension filter is configured, read
up to 512 head bytes and, if that read returned no error, classify them
with DetectContentType (abstracted as the detect parameter) and abandon
the file unless the type has prefix text-slash or suffix slash-xml; then
rewind, and hand over to the stat, size, read and match stages. -/
def checkFile (detect : List Nat → String) (ffilter : List String)
    (path : String) (f : GoFile) (sigs : List Signature) : CheckResult :=
  if f.openErr then CheckResult.warnOpen
  else if ffilter.isEmpty then
    if f.headErr || f.content.isEmpty then
      if f.seekErr then CheckResult.warnSeek else scanStage path f sigs
    else
      let mimeType := detect (f.content.take 512)
      if goHasPrefix mimeType "text/" || goHasSuffix mimeType "/xml" then
        if f.seekErr then CheckResult.warnSeek else scanStage path f sigs
      else CheckResult.skippedNonText
  else scanStage path f sigs

/-! ## The extension filter flag (FileExtensions.Set) -/

/-- ASCII whitespace as strings.TrimSpace strips it (the inputs of the
flag are command-line extension lists). -/
def goIsSpaceChar (c : Char) : Bool :=
  c == ' ' || c == '\t' || c == '\n' || c == Char.ofNat 11 || c == Char.ofNat 12 || c == '\r'

/-- strings.TrimSpace on the character list of a string. -/
def goTrimSpace (cs : List Char) : List Char :=
  ((cs.dropWhile goIsSpaceChar).reverse.dropWhile goIsSpaceChar).reverse

/-- strings.Split on a single comma separator. -/
def splitAtCommas : List Char → List (List Char)
  | [] => [[]]
  | c :: rest =>
    let r := splitAtCommas rest
    if c = ',' then [] :: r
    else
      match r with
      | h :: t => (c :: h) :: t
      | [] => [[c]]

/-- The extension set of the filter flag: the keys of the Go set-map, as a
duplicate-free list. -/
abbrev FileExtensions := List String

/-- Insertion of one comma-separated piece into the filter map: trim it,
drop it when empty, and store it with a leading dot added when the first
byte is not already a dot. -/
def insertExt (acc : FileExtensions) (piece : List Char) : FileExtensions :=
  match goTrimSpace piece with
  | [] => acc
  | c :: cs =>
    let key : String := if c = '.' then String.mk (c :: cs) else String.mk ('.' :: c :: cs)
    if acc.contains key then acc else acc ++ [key]

/-- The Set method of the filter flag: refuse to run when the map already
holds an extension, otherwise split the value at commas and insert every
non-empty trimmed piece. -/
def FileExtensions.Set (li : FileExtensions) (value : String) :
    Except String FileExtensions :=
  if li.length > 0 then Except.error "flag already set"
  else Except.ok ((splitAtCommas value.data).foldl insertExt li)

/-! ## The directory walker (walk) -/

/-- filepath.Ext: the suffix of the path starting at the last dot that
follows the last slash; empty when that final element has no dot.
Computed by scanning the reversed character list. -/
def extRevAux : List Char → List Char → List Char
  | [], _ => []
  | c :: rest, acc =>
    if c = '/' then []
    else if c = '.' then c :: acc
    else extRevAux rest (c :: acc)

/-- filepath.Ext of a path string. -/
def goExt (path : String) : String := String.mk (extRevAux path.data.reverse [])

/-- One callback invocation of the walk: either filepath.Walk reports a
traversal error for an entry (carrying its message), or it visits an entry
that is a directory or a file. -/
inductive WalkEvent where
  | errEntry (msg : String)
  | entry (path : String) (isDir : Bool)
deriving DecidableEq

/-- Observable effects of the walk: a log line, a path sent into the
paths channel, or the closing of that channel. -/
inductive WalkOutput where
  | logLine (s : String)
  | emit (path : String)
  | close
deriving DecidableEq

/-- The walkFn callback: a traversal error is logged (with the fatal
prefix the source uses) and swallowed; directories are skipped; a file is
skipped when a non-empty filter does not contain its extension; every
other file path is emitted. -/
def walkFn (ffilter : FileExtensions) : WalkEvent → List WalkOutput
  | WalkEvent.errEntry msg => [WalkOutput.logLine ("[fatal] walk error: " ++ msg)]
  | WalkEvent.entry path isDir =>
    if isDir then []
    else if (!ffilter.contains (goExt path)) && ffilter.length > 0 then []
    else [WalkOutput.emit path]

/-- Concatenated effects of a sequence of walk callback invocations. -/
def walkOutputsOf (ffilter : FileExtensions) : List WalkEvent → List WalkOutput
  | [] => []
  | e :: rest => walkFn ffilter e ++ walkOutputsOf ffilter rest

/-- The walk goroutine: run the callback over every event the traversal
produces and close the paths channel afterwards. -/
def walk (ffilter : FileExtensions) (events : List WalkEvent) : List WalkOutput :=
  walkOutputsOf ffilter events ++ [WalkOutput.close]

/-! ## Concrete fixtures for witness instantiations -/

/-- A sample pattern compiler: the lone open parenthesis fails to compile,
every other pattern compiles to a matcher looking for the byte 101. -/
def wCompile : String → Except String (List Nat → Bool) :=
  fun p => if p = "(" then Except.error "missing closing )" else Except.ok (fun c => c.contains 101)

/-- A critical-severity raw signature with a well-formed pattern. -/
def wRawEval : RawSignature :=
  { Id := 1, Title := "WebShell", «Type» := "c", Signature := "eval" }

/-- A soft-severity raw signature with a well-formed pattern. -/
def wRawSoft : RawSignature :=
  { Id := 3, Title := "SoftSig", «Type» := "s", Signature := "post" }

/-- A raw signature whose pattern fails to compile under wCompile. -/
def wRawBad : RawSignature :=
  { Id := 2, Title := "BadSig", «Type» := "s", Signature := "(" }

/-- The compiled form of wRawEval under wCompile. -/
def wSigEval : Signature :=
  { Id := 1, Title := "WebShell", «Type» := "c", Signature := "eval",
    Regexp := fun c => c.contains 101 }

/-- The compiled form of wRawSoft under wCompile. -/
def wSigSoft : Signature :=
  { Id := 3, Title := "SoftSig", «Type» := "s", Signature := "post",
    Regexp := fun c => c.contains 101 }

/-- A compiled signature whose matcher looks for the byte 122. -/
def wSigNo : Signature :=
  { Id := 7, Title := "NoHit", «Type» := "c", Signature := "zzz",
    Regexp := fun c => c.contains 122 }

/-- A content-type detector that always reports plain text. -/
def wDetect : List Nat → String := fun _ => "text/plain"

/-- An error-free file whose stat reports one byte above the ceiling. -/
def wFileBig : GoFile :=
  { content := [], size := 2097153, openErr := false, headErr := false,
    seekErr := false, statErr := false, readErr := false }

/-- An error-free empty file (its initial 512-byte read reports an error,
zero bytes being available at end of file). -/
def wFileEmpty : GoFile :=
  { content := [], size := 0, openErr := false, headErr := false,
    seekErr := false, statErr := false, readErr := false }

/-! ## Helper lemmas -/

/-- The signature loop reports nothing exactly when no signature matches
the content. -/
theorem matchLoop_none_iff (sigs : List Signature) (c : List Nat) (path : String) :
    matchLoop sigs c path = none ↔ ∀ s ∈ sigs, s.Regexp c = false := by
  induction sigs with
  | nil => simp [matchLoop]
  | cons s rest ih =>
    by_cases hr : s.Regexp c = true
    · simp only [matchLoop, if_pos hr]
      constructor
      · intro h; cases h
      · intro h
        have hs := h s (List.mem_cons_self s rest)
        rw [hr] at hs; cases hs
    · have hrf : s.Regexp c = false := by
        cases hb : s.Regexp c
        · rfl
        · exact absurd hb hr
      simp only [matchLoop, if_neg hr]
      rw [ih]
      constructor
      · intro h t ht
        rcases List.mem_cons.mp ht with heq | hmem
        · subst heq; exact hrf
        · exact h t hmem
      · intro h t ht; exact h t (List.mem_cons_of_mem _ ht)

/-- The first matching signature wins: with every earlier signature
non-matching and one signature matching, the loop stops there with its
formatted line. -/
theorem matchLoop_first (c : List Nat) (path : String) :
    ∀ pre (s : Signature) post, (∀ t ∈ pre, t.Regexp c = false) → s.Regexp c = true →
      matchLoop (pre ++ s :: post) c path = some (formatMatch s path) := by
  intro pre
  induction pre with
  | nil =>
    intro s post _ hs
    simp [matchLoop, hs]
  | cons t pre2 ih =>
    intro s post h hs
    have ht : t.Regexp c = false := h t (List.mem_cons_self t pre2)
    have ht2 : ¬ t.Regexp c = true := by rw [ht]; intro hx; cases hx
    simp only [List.cons_append, matchLoop, if_neg ht2]
    exact ih s post (fun u hu => h u (List.mem_cons_of_mem _ hu)) hs

/-- Any line the signature loop produces comes from the first matching
signature, with all signatures before it non-matching. -/
theorem matchLoop_some_decomp (c : List Nat) (path : String) :
    ∀ sigs line, matchLoop sigs c path = some line →
      ∃ pre s post, sigs = pre ++ s :: post ∧ (∀ t ∈ pre, t.Regexp c = false) ∧
        s.Regexp c = true ∧ line = formatMatch s path := by
  intro sigs
  induction sigs with
  | nil => intro line h; simp [matchLoop] at h
  | cons s rest ih =>
    intro line h
    by_cases hr : s.Regexp c = true
    · refine ⟨[], s, rest, rfl, by simp, hr, ?_⟩
      simp only [matchLoop, if_pos hr] at h
      exact (Option.some.inj h).symm
    · have hrf : s.Regexp c = false := by
        cases hb : s.Regexp c
        · rfl
        · exact absurd hb hr
      simp only [matchLoop, if_neg hr] at h
      obtain ⟨pre, s2, post, heq, hpre, hs2, hline⟩ := ih line h
      refine ⟨s :: pre, s2, post, by rw [heq]; rfl, ?_, hs2, hline⟩
      intro t ht
      rcases List.mem_cons.mp ht with heq2 | hmem
      · subst heq2; exact hrf
      · exact hpre t hmem

/-- The stat-size-read-match stage never reports a file as non-text. -/
theorem scanStage_ne_skipped (path : String) (f : GoFile) (sigs : List Signature) :
    scanStage path f sigs ≠ CheckResult.skippedNonText := by
  intro h
  unfold scanStage at h
  split_ifs at h
  split at h <;> cases h

/-- A match line reported by checkFile comes from the signature loop over
the normalized full content. -/
theorem checkFile_matched_matchLoop (detect : List Nat → String) (ffilter : List String)
    (path : String) (f : GoFile) (sigs : List Signature) (line : String) :
    checkFile detect ffilter path f sigs = CheckResult.matched line →
    matchLoop sigs (normalizeContent f.content) path = some line := by
  intro h
  have hscan : scanStage path f sigs = CheckResult.matched line := by
    simp only [checkFile] at h
    split_ifs at h <;> exact h
  unfold scanStage at hscan
  split_ifs at hscan
  cases hm : matchLoop sigs (normalizeContent f.content) path with
  | none => rw [hm] at hscan; cases hscan
  | some l =>
    rw [hm] at hscan
    cases hscan
    rfl

/-- The compilation loop succeeds on a list of records whose patterns all
compile, and the output pairs up with the input in order: same record,
matcher as compiled. -/
theorem compileAll_all_ok (compile : String → Except String (List Nat → Bool)) :
    ∀ sigs : List RawSignature, (∀ s ∈ sigs, ∃ r, compile s.Signature = Except.ok r) →
      ∃ out, compileAll compile sigs = Except.ok out ∧
        List.Forall₂ (fun s r => sigToRaw s = r ∧ compile r.Signature = Except.ok s.Regexp)
          out sigs := by
  intro sigs
  induction sigs with
  | nil => intro _; exact ⟨[], rfl, List.Forall₂.nil⟩
  | cons sig rest ih =>
    intro h
    obtain ⟨r, hr⟩ := h sig (List.mem_cons_self sig rest)
    obtain ⟨tail, htail, hrel⟩ := ih (fun s hs => h s (List.mem_cons_of_mem _ hs))
    refine ⟨{ Id := sig.Id, Title := sig.Title, «Type» := sig.«Type»,
              Signature := sig.Signature, Regexp := r } :: tail, ?_, ?_⟩
    · simp [compileAll, hr, htail]
    · exact List.Forall₂.cons ⟨rfl, hr⟩ hrel

/-- The compilation loop fails with the descriptive message of the first
record whose pattern does not compile. -/
theorem compileAll_error_first (compile : String → Except String (List Nat → Bool)) :
    ∀ (pre : List RawSignature) sig post e,
      (∀ s ∈ pre, ∃ r, compile s.Signature = Except.ok r) →
      compile sig.Signature = Except.error e →
      compileAll compile (pre ++ sig :: post) = Except.error (compileErrMsg sig e) := by
  intro pre
  induction pre with
  | nil =>
    intro sig post e _ herr
    simp [compileAll, herr]
  | cons p pre2 ih =>
    intro sig post e h herr
    obtain ⟨r, hr⟩ := h p (List.mem_cons_self p pre2)
    have htail := ih sig post e (fun s hs => h s (List.mem_cons_of_mem _ hs)) herr
    simp [compileAll, hr, htail]

/-- The compilation loop never succeeds when some record's pattern fails
to compile: no partially compiled set. -/
theorem compileAll_no_partial (compile : String → Except String (List Nat → Bool)) :
    ∀ (sigs : List RawSignature) sig e, sig ∈ sigs → compile sig.Signature = Except.error e →
      ∀ out, compileAll compile sigs ≠ Except.ok out := by
  intro sigs
  induction sigs with
  | nil => intro sig e h; cases h
  | cons s rest ih =>
    intro sig e hmem herr out hok
    simp only [compileAll] at hok
    rcases List.mem_cons.mp hmem with heq | hmem2
    · subst heq
      rw [herr] at hok
      cases hok
    · cases hc : compile s.Signature with
      | error e2 => rw [hc] at hok; cases hok
      | ok r =>
        rw [hc] at hok
        cases ht : compileAll compile rest with
        | error e2 => rw [ht] at hok; cases hok
        | ok tail => exact ih sig e hmem2 herr tail ht

/-- Concatenated walk effects split at list concatenation. -/
theorem walkOutputsOf_append (ffilter : FileExtensions) (l1 l2 : List WalkEvent) :
    walkOutputsOf ffilter (l1 ++ l2) = walkOutputsOf ffilter l1 ++ walkOutputsOf ffilter l2 := by
  induction l1 with
  | nil => rfl
  | cons e rest ih => simp [walkOutputsOf, ih]

/-- Unfolding of the extension inserter on a piece that trims to
nothing: the piece is dropped. -/
theorem insertExt_of_trim_nil (acc : FileExtensions) (p : List Char)
    (h : goTrimSpace p = []) : insertExt acc p = acc := by
  unfold insertExt
  rw [h]

/-- Unfolding of the extension inserter on a piece with a non-empty
trim: the stored key gains a leading dot when it lacks one. -/
theorem insertExt_of_trim_cons (acc : FileExtensions) (p : List Char) (c : Char)
    (cs : List Char) (h : goTrimSpace p = c :: cs) :
    insertExt acc p =
      (if acc.contains (if c = '.' then String.mk (c :: cs) else String.mk ('.' :: c :: cs))
       then acc
       else acc ++ [if c = '.' then String.mk (c :: cs) else String.mk ('.' :: c :: cs)]) := by
  unfold insertExt
  rw [h]

/-- The extension inserter keeps the invariant that every stored
extension begins with a dot. -/
theorem insertExt_fold_dots :
    ∀ (pieces : List (List Char)) (acc : FileExtensions),
      (∀ e ∈ acc, e.data.head? = some '.') →
      ∀ e ∈ pieces.foldl insertExt acc, e.data.head? = some '.' := by
  intro pieces
  induction pieces with
  | nil => intro acc h; simpa using h
  | cons p rest ih =>
    intro acc h
    simp only [List.foldl_cons]
    apply ih
    intro e he
    cases hts : goTrimSpace p with
    | nil =>
      rw [insertExt_of_trim_nil acc p hts] at he
      exact h e he
    | cons c cs =>
      rw [insertExt_of_trim_cons acc p c cs hts] at he
      by_cases hc : c = '.'
      · rw [if_pos hc] at he
        by_cases hmem : acc.contains (String.mk (c :: cs)) = true
        · rw [if_pos hmem] at he; exact h e he
        · rw [if_neg hmem] at he
          rcases List.mem_append.mp he with hin | hin
          · exact h e hin
          · rw [List.mem_singleton.mp hin, hc]; rfl
      · rw [if_neg hc] at he
        by_cases hmem : acc.contains (String.mk ('.' :: c :: cs)) = true
        · rw [if_pos hmem] at he; exact h e he
        · rw [if_neg hmem] at he
          rcases List.mem_append.mp he with hin | hin
          · exact h e hin
          · rw [List.mem_singleton.mp hin]; rfl

/-! ## The claims -/

/-- C1: the Content Normalizer applies its four steps in the fixed order
quote-dot-quote deletion, block-comment deletion, hex-escape decoding,
octal-escape decoding, and on the four specified vectors it produces
respectively the unmasked eval call, the bare payload, and twice the
decoded word eval. -/
theorem C1_normalizer_order_and_vectors :
    (∀ c, normalizeContent c = normStep4 (normStep3 (normStep2 (normStep1 c)))) ∧
    normalizeContent (strBytes "'ev'.'al'") = strBytes "'eval'" ∧
    normalizeContent (strBytes "/* comment */payload") = strBytes "payload" ∧
    normalizeContent (strBytes "\\x65\\x76\\x61\\x6c") = strBytes "eval" ∧
    normalizeContent (strBytes "\\145\\166\\141\\154") = strBytes "eval" :=
  ⟨fun _ => rfl, by decide, by decide, by decide, by decide⟩

/-- C2: the signature loop reports nothing exactly when no signature
matches, the first matching signature in set order wins with the exact
output shape, any reported line decomposes that way, and every match line
checkFile emits comes from the first matching signature against the
normalized content. -/
theorem C2_first_match_wins : ∀ (sigs : List Signature) (c : List Nat) (path : String),
    (matchLoop sigs c path = none ↔ ∀ s ∈ sigs, s.Regexp c = false) ∧
    (∀ pre (s : Signature) post, (∀ t ∈ pre, t.Regexp c = false) → s.Regexp c = true →
      matchLoop (pre ++ s :: post) c path =
        some ("Matched: " ++ s.Title ++ " (signature id = " ++ toString s.Id ++ "): " ++ path)) ∧
    (∀ line, matchLoop sigs c path = some line →
      ∃ pre s post, sigs = pre ++ s :: post ∧ (∀ t ∈ pre, t.Regexp c = false) ∧
        s.Regexp c = true ∧ line = formatMatch s path) ∧
    (∀ detect ffilter f line, checkFile detect ffilter path f sigs = CheckResult.matched line →
      ∃ pre s post, sigs = pre ++ s :: post ∧
        (∀ t ∈ pre, t.Regexp (normalizeContent f.content) = false) ∧
        s.Regexp (normalizeContent f.content) = true ∧ line = formatMatch s path) := by
  intro sigs c path
  refine ⟨matchLoop_none_iff sigs c path, matchLoop_first c path, matchLoop_some_decomp c path sigs, ?_⟩
  intro detect ffilter f line h
  exact matchLoop_some_decomp (normalizeContent f.content) path sigs line
    (checkFile_matched_matchLoop detect ffilter path f sigs line h)

/-- Witness for C2: with a non-matching signature ahead of a matching one,
the loop reports the second signature's line. -/
theorem C2_first_match_wins_witness :
    matchLoop [wSigNo, wSigEval] (strBytes "eval") "shell.php" =
      some ("Matched: " ++ wSigEval.Title ++ " (signature id = " ++
        toString wSigEval.Id ++ "): " ++ "shell.php") :=
  (C2_first_match_wins [wSigNo, wSigEval] (strBytes "eval") "shell.php").2.1
    [wSigNo] wSigEval []
    (by
      intro t ht
      rw [List.mem_singleton.mp ht]
      decide)
    (by decide)

/-- C3: readDatabase fails on the first signature whose pattern does not
compile, with an error naming that signature's id and pattern; it never
returns a set when any pattern fails; and when every pattern compiles it
returns the full set in document order, each record paired with its
compiled matcher. -/
theorem C3_compile_fail_fast : ∀ compile : String → Except String (List Nat → Bool),
    (∀ (skipsoft : Bool) (pre : List RawSignature) sig post e,
      (∀ s ∈ pre, ∃ r, compile s.Signature = Except.ok r) →
      compile sig.Signature = Except.error e →
      readDatabase compile skipsoft (pre ++ sig :: post) =
        Except.error (compileErrMsg sig e)) ∧
    (∀ (skipsoft : Bool) (sigs : List RawSignature) sig e, sig ∈ sigs →
      compile sig.Signature = Except.error e →
      ∀ out, readDatabase compile skipsoft sigs ≠ Except.ok out) ∧
    (∀ sigs : List RawSignature, sigs ≠ [] →
      (∀ s ∈ sigs, ∃ r, compile s.Signature = Except.ok r) →
      ∃ out, readDatabase compile false sigs = Except.ok out ∧
        List.Forall₂ (fun s r => sigToRaw s = r ∧ compile r.Signature = Except.ok s.Regexp)
          out sigs) := by
  intro compile
  refine ⟨?_, ?_, ?_⟩
  · intro skipsoft pre sig post e h herr
    have hne : pre ++ sig :: post ≠ [] := by simp
    have hca := compileAll_error_first compile pre sig post e h herr
    simp [readDatabase, hne, hca]
  · intro skipsoft sigs sig e hmem herr out hok
    by_cases hnil : sigs = []
    · subst hnil; cases hmem
    · simp only [readDatabase, if_neg hnil] at hok
      cases hc : compileAll compile sigs with
      | error e2 => rw [hc] at hok; cases hok
      | ok compiled => exact compileAll_no_partial compile sigs sig e hmem herr compiled hc
  · intro sigs hne h
    obtain ⟨out, hout, hrel⟩ := compileAll_all_ok compile sigs h
    refine ⟨out, ?_, hrel⟩
    simp [readDatabase, hne, hout]

/-- Witness for C3: a two-record document whose second pattern fails to
compile is rejected with the descriptive error. -/
theorem C3_compile_fail_fast_witness :
    readDatabase wCompile false [wRawEval, wRawBad] =
      Except.error (compileErrMsg wRawBad "missing closing )") :=
  (C3_compile_fail_fast wCompile).1 false [wRawEval] wRawBad [] "missing closing )"
    (by
      intro s hs
      rw [List.mem_singleton.mp hs]
      exact ⟨fun c => c.contains 101, rfl⟩)
    rfl

/-- C4: with the skip-soft option the returned set is exactly the
critical-severity (severity code c) subsequence of the compiled set in
original order, an empty filtered set is still a successful load, and with
zero signatures checkFile never emits a match for any file. -/
theorem C4_skip_soft_filter : ∀ (compile : String → Except String (List Nat → Bool))
    (sigs : List RawSignature) (out : List Signature),
    readDatabase compile false sigs = Except.ok out →
    (readDatabase compile true sigs = Except.ok (out.filter (fun s => s.«Type» == "c")) ∧
     List.Sublist (out.filter (fun s => s.«Type» == "c")) out) ∧
    (∀ c path, matchLoop [] c path = none) ∧
    (∀ detect ffilter path f line,
      checkFile detect ffilter path f [] ≠ CheckResult.matched line) := by
  intro compile sigs out hok
  have hnil : sigs ≠ [] := by
    intro h
    subst h
    simp [readDatabase] at hok
  have hca : compileAll compile sigs = Except.ok out := by
    simp only [readDatabase, if_neg hnil] at hok
    cases hc : compileAll compile sigs with
    | error e => rw [hc] at hok; cases hok
    | ok compiled =>
      rw [hc] at hok
      cases hok
      rfl
  refine ⟨⟨?_, List.filter_sublist out⟩, ?_, ?_⟩
  · simp [readDatabase, hnil, hca]
  · intro c path; rfl
  · intro detect ffilter path f line h
    have := checkFile_matched_matchLoop detect ffilter path f [] line h
    cases this

/-- Witness for C4: loading the two-record database with skip-soft keeps
exactly the critical signature. -/
theorem C4_skip_soft_filter_witness :
    readDatabase wCompile true [wRawEval, wRawSoft] =
      Except.ok ([wSigEval, wSigSoft].filter (fun s => s.«Type» == "c")) :=
  ((C4_skip_soft_filter wCompile [wRawEval, wRawSoft] [wSigEval, wSigSoft] rfl).1).1

/-- C5 counterexample: a traversal error is logged with the fatal prefix,
not the warning prefix, refuting the claim that recoverable walk errors
are warning-prefixed and never fatal-prefixed. -/
theorem C5_fatal_prefix_counterexample :
    walk [] [WalkEvent.errEntry "permission denied"] =
      [WalkOutput.logLine ("[fatal] walk error: " ++ "permission denied"), WalkOutput.close] ∧
    goHasPrefix ("[fatal] walk error: " ++ "permission denied") "[warning]" = false ∧
    goHasPrefix ("[fatal] walk error: " ++ "permission denied") "[fatal]" = true :=
  ⟨rfl, by decide, by decide⟩

/-- C5 (amended): every traversal error produces exactly one diagnostic
line, prefixed fatal (despite the error being recoverable), the walk
continues with the remaining entries, and the output channel is closed
only after the whole walk completes. -/
theorem C5_walk_error_policy : ∀ ffilter : FileExtensions,
    (∀ pre msg post,
      walk ffilter (pre ++ WalkEvent.errEntry msg :: post) =
        walkOutputsOf ffilter pre ++
          WalkOutput.logLine ("[fatal] walk error: " ++ msg) ::
            (walkOutputsOf ffilter post ++ [WalkOutput.close])) ∧
    (∀ events, (walk ffilter events).getLast? = some WalkOutput.close) ∧
    (∀ msg, walkFn ffilter (WalkEvent.errEntry msg) =
      [WalkOutput.logLine ("[fatal] walk error: " ++ msg)]) := by
  intro ffilter
  refine ⟨?_, ?_, fun _ => rfl⟩
  · intro pre msg post
    unfold walk
    rw [walkOutputsOf_append]
    simp [walkOutputsOf, walkFn]
  · intro events
    unfold walk
    exact List.getLast?_concat _

/-- C6: a file whose reported size exceeds the 2 MiB ceiling is skipped
with a warning before its content is read or any signature tried (the
result is the size warning for every content and signature set), one byte
over the ceiling is skipped, and a file of exactly the ceiling proceeds to
normalization and matching. -/
theorem C6_size_ceiling : ∀ (detect : List Nat → String) (ffilter : List String)
    (path : String) (f : GoFile) (sigs : List Signature),
    f.openErr = false → ffilter ≠ [] → f.statErr = false →
    (f.size > MAXFILESIZE → checkFile detect ffilter path f sigs = CheckResult.warnSize) ∧
    (f.size = MAXFILESIZE + 1 → checkFile detect ffilter path f sigs = CheckResult.warnSize) ∧
    (f.size ≤ MAXFILESIZE → f.readErr = false →
      checkFile detect ffilter path f sigs =
        match matchLoop sigs (normalizeContent f.content) path with
        | some line => CheckResult.matched line
        | none => CheckResult.noMatch) := by
  intro detect ffilter path f sigs hopen hff hstat
  have hfe : ffilter.isEmpty = false := by
    cases ffilter with
    | nil => exact absurd rfl hff
    | cons a as => rfl
  have h1 : f.size > MAXFILESIZE → checkFile detect ffilter path f sigs = CheckResult.warnSize := by
    intro hs
    simp [checkFile, hopen, hfe, scanStage, hstat, hs]
  refine ⟨h1, fun h => h1 (by rw [h]; exact lt_add_one MAXFILESIZE), ?_⟩
  intro hle hread
  have hgt : ¬ (f.size > MAXFILESIZE) := not_lt.mpr hle
  simp [checkFile, hopen, hfe, scanStage, hstat, hgt, hread]

/-- Witness for C6: an error-free file one byte above the ceiling is
skipped with the size warning. -/
theorem C6_size_ceiling_witness :
    checkFile wDetect [".php"] "big.php" wFileBig [] = CheckResult.warnSize :=
  (C6_size_ceiling wDetect [".php"] "big.php" wFileBig [] rfl (by simp) rfl).1 (by decide)

/-- C7: every escape span whose decoding fails is replaced by the empty
byte sequence: unquoteStr maps any decode error to the empty slice and
any successful decode to its bytes, steps three and four substitute it
over every matched span, and a failing span inside real content simply
vanishes while normalization itself is a total function that never
reports an error. -/
theorem C7_decode_error_swallowed :
    (∀ m e, goUnquoteSingle m = Except.error e → unquoteStr m = []) ∧
    (∀ m u, goUnquoteSingle m = Except.ok u → unquoteStr m = u) ∧
    (∀ c, normStep3 c = replaceScan hexMatchAt unquoteStr c) ∧
    (∀ c, normStep4 c = replaceScan octMatchAt unquoteStr c) ∧
    normStep3 (strBytes "a\\x6z") = strBytes "az" ∧
    normStep4 (strBytes "\\98") = [] := by
  refine ⟨?_, ?_, fun _ => rfl, fun _ => rfl, by decide, by decide⟩
  · intro m e h
    unfold unquoteStr
    rw [h]
  · intro m u h
    unfold unquoteStr
    rw [h]

/-- Witness for C7: the one-digit hex escape fails to decode and
unquoteStr returns the empty slice. -/
theorem C7_decode_error_swallowed_witness :
    unquoteStr (strBytes "\\x6") = [] :=
  C7_decode_error_swallowed.1 (strBytes "\\x6") "invalid syntax" rfl

/-- C8: every extension the filter stores begins with a dot (a bare
extension gains a leading dot, empty entries are dropped), and once the
filter is non-empty every further Set call fails with the flag-already-set
error, leaving the stored filter to its caller unchanged. -/
theorem C8_extension_filter_set_once :
    (∀ value out, FileExtensions.Set [] value = Except.ok out →
      ∀ e ∈ out, e.data.head? = some '.') ∧
    FileExtensions.Set [] "php" = Except.ok [".php"] ∧
    FileExtensions.Set [] "php, ,js" = Except.ok [".php", ".js"] ∧
    (∀ (li : FileExtensions) value, li ≠ [] →
      FileExtensions.Set li value = Except.error "flag already set") := by
  refine ⟨?_, rfl, rfl, ?_⟩
  · intro value out hok e he
    have hlen : ¬ ([] : FileExtensions).length > 0 := by simp
    unfold FileExtensions.Set at hok
    rw [if_neg hlen] at hok
    have hfold := Except.ok.inj hok
    rw [← hfold] at he
    exact insertExt_fold_dots (splitAtCommas value.data) [] (by intro x hx; cases hx) e he
  · intro li value hli
    unfold FileExtensions.Set
    rw [if_pos (List.length_pos.mpr hli)]

/-- Witness for C8: the stored form of the bare extension php begins with
a dot, and a second Set call on the non-empty filter fails. -/
theorem C8_extension_filter_set_once_witness :
    (".php" : String).data.head? = some '.' ∧
    FileExtensions.Set [".php"] "js" = Except.error "flag already set" :=
  ⟨C8_extension_filter_set_once.1 "php" [".php"] rfl ".php" (List.mem_singleton.mpr rfl),
   C8_extension_filter_set_once.2.2.2 [".php"] "js" (by simp)⟩

/-- C9: the hex-escape pattern matches a single hex digit as well as two,
the octal pattern matches the digits 8 and 9, and a matched span that is
not a valid escape is deleted entirely, so a trailing lone hex digit
vanishes leaving the following byte and a backslash-98 input normalizes
to the empty sequence. -/
theorem C9_escape_span_shapes :
    hexMatchAt (strBytes "\\x6g") = some (strBytes "\\x6", strBytes "g") ∧
    hexMatchAt (strBytes "\\x65") = some (strBytes "\\x65", []) ∧
    octMatchAt (strBytes "\\98") = some (strBytes "\\98", []) ∧
    unquoteStr (strBytes "\\x6") = [] ∧
    unquoteStr (strBytes "\\98") = [] ∧
    normalizeContent (strBytes "\\x6g") = strBytes "g" ∧
    normalizeContent (strBytes "\\98") = [] :=
  ⟨by decide, by decide, by decide, by decide, by decide, by decide, by decide⟩

/-- C10: when no extension filter is configured and the initial 512-byte
read fails (as on an empty file), sniffing is bypassed, the file is never
skipped as non-text, and it proceeds to the size check, normalization and
signature matching. -/
theorem C10_sniff_bypassed_on_read_error : ∀ (detect : List Nat → String) (path : String)
    (f : GoFile) (sigs : List Signature),
    f.openErr = false → (f.headErr = true ∨ f.content = []) → f.seekErr = false →
    checkFile detect [] path f sigs = scanStage path f sigs ∧
    checkFile detect [] path f sigs ≠ CheckResult.skippedNonText ∧
    (f.statErr = false → f.size ≤ MAXFILESIZE → f.readErr = false →
      checkFile detect [] path f sigs =
        match matchLoop sigs (normalizeContent f.content) path with
        | some line => CheckResult.matched line
        | none => CheckResult.noMatch) := by
  intro detect path f sigs hopen hhead hseek
  have hcond : (f.headErr || f.content.isEmpty) = true := by
    rcases hhead with h | h
    · rw [h]; rfl
    · rw [h]; simp
  have h1 : checkFile detect [] path f sigs = scanStage path f sigs := by
    simp [checkFile, hopen, hcond, hseek]
  refine ⟨h1, ?_, ?_⟩
  · rw [h1]; exact scanStage_ne_skipped path f sigs
  · intro hstat hle hread
    rw [h1]
    have hgt : ¬ (f.size > MAXFILESIZE) := not_lt.mpr hle
    simp [scanStage, hstat, hgt, hread]

/-- Witness for C10: an empty file with no extension filter is scanned
and, with no signatures, yields no match rather than a non-text skip. -/
theorem C10_sniff_bypassed_on_read_error_witness :
    checkFile wDetect [] "empty.txt" wFileEmpty [] = CheckResult.noMatch :=
  (C10_sniff_bypassed_on_read_error wDetect "empty.txt" wFileEmpty [] rfl
    (Or.inr rfl) rfl).2.2 rfl (by decide) rfl

end Rigel
